import Mathlib

/-!
Formal model of the circle-packing grid generator in `generate_grid.py`
(class `OptimalCirclePackingGrid`).

Modelling conventions:

* Coordinates and all float arithmetic are embedded as exact rationals `ℚ`.
* The external spatial engine (shapely polygon tests, PostGIS queries) is the
  spec's "Spatial Feasibility Oracle"; it is abstracted as an `Oracle`
  structure of boolean predicates and a geography distance function:
  - `inCountry x y` models `_point_in_country` (shapely `contains` on a point);
  - `containsCircle x y rdeg` models `country_boundary.contains(Point(x,y).buffer(rdeg))`;
  - `geoDist` models the PostGIS geography distance used by `ST_DWithin`
    (the stored circle geometry's centroid is identified with its center);
  - `bounds` models `_get_country_bounds`;
  - `K` models the per-run constant `_meters_to_degrees(1, center_lat)`
    where `center_lat = (miny+maxy)/2`: every call of `_meters_to_degrees`
    in the program passes this same latitude, so the conversion is
    multiplication by one constant.  Its true value
    `(180/(6378137·π))/cos(radians(center_lat))` is irrational, hence it is
    carried as an abstract rational parameter; the real-valued function
    itself is modelled separately as `meters_to_degrees` for claim C8.
* `np.random.uniform` draws are abstracted as explicit draw streams
  (`ℕ → Pt` per call site); quantifying over the streams quantifies over
  the RNG behaviour.  Each `_pack_circles_systematic` call site receives
  its own stream (per level, and per probed radius inside the search).
  The source samples uniformly from the rectangle
  `[minx + radius_deg, maxx - radius_deg] × [miny + radius_deg, maxy - radius_deg]`;
  the universally quantified theorems range over a superset of those
  streams (sound for invariants), and every concrete draw stream used in
  a counterexample or possibility witness below takes its values strictly
  inside that sampling rectangle for every radius at which it is consumed,
  so those runs are behaviours the program's RNG can produce.
* Euclidean-distance comparisons (`cdist ... < 2*radius_deg`) are embedded
  in squared form (`distSq < (2*radius_deg)^2`), which is equivalent for the
  nonnegative thresholds produced in the program.
* `np.arange(start, stop, step)` is embedded exactly: values
  `start + i*step` for `0 ≤ i < ⌈(stop-start)/step⌉` when `step > 0`.
* The `while` loop of `generate_optimal_coverage_grid` is embedded with
  fuel 60: the source's own safety cap (`if level > 50: break`) bounds the
  iteration count by 51, so the fuel is never exhausted.
-/

namespace GridGen

/-- A candidate center in the territory's coordinate plane (degrees). -/
abbrev Pt : Type := ℚ × ℚ

/-- Squared Euclidean distance between two points. -/
def distSq (p q : Pt) : ℚ := (p.1 - q.1) ^ 2 + (p.2 - q.2) ^ 2

/-- Exact model of `np.arange(start, stop, step)` for the positive steps used
by the program: the values `start + i*step` for `0 ≤ i < ⌈(stop-start)/step⌉`. -/
def arange (start stop step : ℚ) : List ℚ :=
  (List.range (if 0 < step ∧ start < stop then ⌈(stop - start) / step⌉₊ else 0)).map
    (fun i : ℕ => start + (i : ℚ) * step)

/-- Bounding box of the territory (`_get_country_bounds`). -/
structure Box where
  minx : ℚ
  miny : ℚ
  maxx : ℚ
  maxy : ℚ
deriving DecidableEq, Repr

/-- The external spatial feasibility oracle (shapely + PostGIS), see the
module docstring for the reading of each field. -/
structure Oracle where
  inCountry : ℚ → ℚ → Bool
  containsCircle : ℚ → ℚ → ℚ → Bool
  geoDist : ℚ → ℚ → ℚ → ℚ → ℚ
  bounds : Box
  K : ℚ

/-- A committed circle: row of the `grid_cell` table
(`latitude = y`, `longitude = x`, `radius` in meters, `level`). -/
structure Circle where
  x : ℚ
  y : ℚ
  radius : ℕ
  level : ℕ
deriving DecidableEq, Repr

/-- Model of `_circle_conflicts_with_existing`: the SQL
`EXISTS(... ST_DWithin(point, centroid, radius_meters + g.radius))`,
i.e. some committed circle's center is within `rm + g.radius` of `(x, y)`
in the oracle's geography metric. -/
def circle_conflicts_with_existing (O : Oracle) (db : List Circle) (x y : ℚ) (rm : ℕ) : Bool :=
  db.any fun g => decide (O.geoDist x y g.x g.y ≤ (rm : ℚ) + (g.radius : ℚ))

/-- Model of `_can_place_circle`: point in country, buffered disk contained in
the country, no conflict with committed circles, and no batch neighbour
closer than `2 * radius_deg` (Euclidean, in degrees; squared form). -/
def can_place_circle (O : Oracle) (db : List Circle) (x y : ℚ) (rm : ℕ) (radius_deg : ℚ)
    (existing : List Pt) : Bool :=
  O.inCountry x y &&
    (O.containsCircle x y radius_deg &&
      (!circle_conflicts_with_existing O db x y rm &&
        !existing.any fun q => decide (distSq (x, y) q < (2 * radius_deg) ^ 2)))

/-- The `max_circles` break guard of `_pack_circles_systematic`.  Python
truthiness: `max_circles = None` and `max_circles = 0` never trigger the
break (`if max_circles and len(circles) >= max_circles`). -/
def limitGuard (maxc : Option ℕ) (acc : List Pt) : Bool :=
  match maxc with
  | some (m + 1) => decide (m + 1 ≤ acc.length)
  | _ => false

/-- One candidate step of the packing loops: skip everything once the guard
fires (loop break), otherwise append the candidate iff `_can_place_circle`
accepts it against the batch built so far. -/
def tryPlace (O : Oracle) (db : List Circle) (rm : ℕ) (radius_deg : ℚ)
    (guard : List Pt → Bool) (acc : List Pt) (p : Pt) : List Pt :=
  if guard acc then acc
  else if can_place_circle O db p.1 p.2 rm radius_deg acc then acc ++ [p] else acc

/-- The systematic grid of candidate centers of `_pack_circles_systematic`:
`np.arange(minx + radius_deg, maxx - radius_deg, radius_deg * 1.8)` in both
axes, enumerated x-major (`for x ...: for y ...`). -/
def grid_candidates (b : Box) (radius_deg : ℚ) : List Pt :=
  (arange (b.minx + radius_deg) (b.maxx - radius_deg) (radius_deg * (9 / 5))).flatMap fun x =>
    (arange (b.miny + radius_deg) (b.maxy - radius_deg) (radius_deg * (9 / 5))).map fun y =>
      (x, y)

/-- The deterministic grid-sampling phase of `_pack_circles_systematic`
(the double `for` loop before the random fill). -/
def pack_grid_phase (O : Oracle) (db : List Circle) (rm : ℕ) (maxc : Option ℕ) : List Pt :=
  (grid_candidates O.bounds ((rm : ℚ) * O.K)).foldl
    (tryPlace O db rm ((rm : ℚ) * O.K) (limitGuard maxc)) []

/-- Model of `_pack_circles_systematic`: grid phase, then random fill.
With a truthy `max_circles` the random phase runs only while the batch is
short, with `min(100, max_circles - len(circles))` attempts; otherwise it
makes 5000 attempts.  `draws` is the abstract stream of
`np.random.uniform` samples for this call. -/
def pack_circles_systematic (O : Oracle) (db : List Circle) (rm : ℕ) (maxc : Option ℕ)
    (draws : ℕ → Pt) : List Pt :=
  let g := pack_grid_phase O db rm maxc
  match maxc with
  | some (m + 1) =>
    if g.length < m + 1 then
      ((List.range (min 100 (m + 1 - g.length))).map draws).foldl
        (tryPlace O db rm ((rm : ℚ) * O.K) (limitGuard (some (m + 1)))) g
    else g
  | none =>
    ((List.range 5000).map draws).foldl
      (tryPlace O db rm ((rm : ℚ) * O.K) (limitGuard none)) g
  | some 0 =>
    ((List.range 5000).map draws).foldl
      (tryPlace O db rm ((rm : ℚ) * O.K) (limitGuard (some 0))) g

/-- Model of `_get_uncovered_sample_points`: sample the bounding box at
resolution `_meters_to_degrees(radius_meters * 0.5, center_lat)` and keep the
in-country points not covered by any committed circle
(`ST_DWithin(point, centroid, g.radius)`). -/
def get_uncovered_sample_points (O : Oracle) (db : List Circle) (rm : ℕ) : List Pt :=
  let res := (rm : ℚ) * (1 / 2) * O.K
  (arange O.bounds.minx O.bounds.maxx res).flatMap fun x =>
    ((arange O.bounds.miny O.bounds.maxy res).filter fun y =>
      O.inCountry x y &&
        !db.any fun g => decide (O.geoDist x y g.x g.y ≤ (g.radius : ℚ))).map fun y => (x, y)

/-- The `len(circles) > 1000` break of the uncovered-points packing loop in
`generate_optimal_coverage_grid` (break right after an append is equivalent
to skipping all remaining candidates once the length exceeds 1000). -/
def uncoveredGuard (acc : List Pt) : Bool := decide (1000 < acc.length)

/-- The loop of `_find_largest_possible_radius`, with the per-radius
feasibility test (`_pack_circles_systematic(mid, max_circles=1)` nonempty)
abstracted as `probe`.  Python's `right = mid - 1` at `mid = 0` makes
`right` negative and ends the loop, which the `mid = 0` case mirrors.
The fuel argument strictly exceeds `right + 1 - left` at every reachable
call (each step shrinks the interval), so it is never exhausted. -/
def bsearchAux (probe : ℕ → Bool) : ℕ → ℕ → ℕ → Option ℕ → Option ℕ
  | 0, _, _, best => best
  | fuel + 1, left, right, best =>
    if left ≤ right then
      if probe ((left + right) / 2) then
        bsearchAux probe fuel ((left + right) / 2 + 1) right (some ((left + right) / 2))
      else if (left + right) / 2 = 0 then best
      else bsearchAux probe fuel left ((left + right) / 2 - 1) best
    else best

/-- Binary search of `_find_largest_possible_radius` over `[lo, hi]`. -/
def bsearch (probe : ℕ → Bool) (lo hi : ℕ) : Option ℕ :=
  bsearchAux probe (hi + 2 - lo) lo hi none

/-- Model of `_find_largest_possible_radius(min_radius, max_radius)`:
binary search whose probe packs at most one circle at the probed radius.
`randL mid` is the draw stream of the probing pack call at radius `mid`. -/
def find_largest_possible_radius (O : Oracle) (db : List Circle) (randL : ℕ → ℕ → Pt)
    (lo hi : ℕ) : Option ℕ :=
  bsearch (fun mid => decide (pack_circles_systematic O db mid (some 1) (randL mid) ≠ [])) lo hi

/-- The per-level circle selection of `generate_optimal_coverage_grid`:
level 0 packs systematically; later levels pack greedily over the uncovered
sample points (with the 1000 break), falling back to the systematic pack
when no uncovered point exists. -/
def level_circles (O : Oracle) (db : List Circle) (draws : ℕ → Pt) (rm lvl : ℕ) : List Pt :=
  if lvl = 0 then pack_circles_systematic O db rm none draws
  else
    match get_uncovered_sample_points O db rm with
    | [] => pack_circles_systematic O db rm none draws
    | p :: ps => (p :: ps).foldl (tryPlace O db rm ((rm : ℚ) * O.K) uncoveredGuard) []

/-- One iteration of the orchestrator loop, as recorded in the run trace:
the `level` counter and `current_max_radius` on entry, the radius search
result, and the number of circles inserted. -/
structure IterLog where
  level : ℕ
  cap : ℕ
  found : Option ℕ
  placed : ℕ
deriving DecidableEq, Repr

/-- Result of `generate_optimal_coverage_grid`: final table contents, the
returned total, the final `level` counter, and the iteration trace. -/
structure RunResult where
  db : List Circle
  total : ℕ
  levels : ℕ
  trace : List IterLog
deriving DecidableEq, Repr

/-- Prepend an iteration record to a run result's trace. -/
def consTrace (e : IterLog) (r : RunResult) : RunResult :=
  ⟨r.db, r.total, r.levels, e :: r.trace⟩

/-- The `while current_max_radius >= min_radius` loop of
`generate_optimal_coverage_grid`.  A falsy search result (`None` or `0`)
breaks the loop; a level that places circles sets
`current_max_radius = optimal_radius - 1`, an empty level sets
`current_max_radius = optimal_radius // 2`; `level` increments every
iteration and `if level > 50` breaks. -/
def runAux (O : Oracle) (rs : ℕ → ℕ → ℕ → Pt) (rp : ℕ → ℕ → Pt) (minr : ℕ) :
    ℕ → ℕ → ℕ → ℕ → List Circle → RunResult
  | 0, _, lvl, tot, db => ⟨db, tot, lvl, []⟩
  | fuel + 1, cap, lvl, tot, db =>
    if cap < minr then ⟨db, tot, lvl, []⟩
    else
      match find_largest_possible_radius O db (rs lvl) minr cap with
      | none => ⟨db, tot, lvl, [⟨lvl, cap, none, 0⟩]⟩
      | some 0 => ⟨db, tot, lvl, [⟨lvl, cap, some 0, 0⟩]⟩
      | some (r + 1) =>
        let circles := level_circles O db (rp lvl) (r + 1) lvl
        if circles = [] then
          if lvl + 1 > 50 then ⟨db, tot, lvl + 1, [⟨lvl, cap, some (r + 1), 0⟩]⟩
          else
            consTrace ⟨lvl, cap, some (r + 1), 0⟩
              (runAux O rs rp minr fuel ((r + 1) / 2) (lvl + 1) tot db)
        else
          if lvl + 1 > 50 then
            ⟨db ++ circles.map fun p => Circle.mk p.1 p.2 (r + 1) lvl,
              tot + circles.length, lvl + 1, [⟨lvl, cap, some (r + 1), circles.length⟩]⟩
          else
            consTrace ⟨lvl, cap, some (r + 1), circles.length⟩
              (runAux O rs rp minr fuel r (lvl + 1) (tot + circles.length)
                (db ++ circles.map fun p => Circle.mk p.1 p.2 (r + 1) lvl))

/-- Model of `generate_optimal_coverage_grid(start_radius, min_radius)`:
clears the table (fresh `db = []`) and runs the level loop.  `rs lvl mid`
is the draw stream of the search probe at level `lvl` and radius `mid`;
`rp lvl` is the draw stream of the full pack at level `lvl`. -/
def generate_optimal_coverage_grid (O : Oracle) (rs : ℕ → ℕ → ℕ → Pt) (rp : ℕ → ℕ → Pt)
    (start_radius minr : ℕ) : RunResult :=
  runAux O rs rp minr 60 start_radius 0 0 []

/-- Model of `main`: the constructor's `_get_country_boundary` runs before
any clearing, so an unknown country raises `ValueError` while the table
still holds its previous contents `db0`; a known country clears and runs. -/
def mainRun (known : Bool) (O : Oracle) (rs : ℕ → ℕ → ℕ → Pt) (rp : ℕ → ℕ → Pt)
    (db0 : List Circle) (start_radius minr : ℕ) : Except String RunResult × List Circle :=
  if known then
    (Except.ok (generate_optimal_coverage_grid O rs rp start_radius minr),
      (generate_optimal_coverage_grid O rs rp start_radius minr).db)
  else (Except.error "Country not found", db0)

/-- Model of `_meters_to_degrees` over the reals:
`meters * (1 / (6378137 * π / 180)) / cos(radians(lat))`. -/
noncomputable def meters_to_degrees (meters lat : ℝ) : ℝ :=
  meters * (1 / (6378137 * Real.pi / 180)) / Real.cos (lat * Real.pi / 180)

/-- Modelled from the spec (§4.1), for comparison in claim C8:
`Δlng = meters / (111320 * cos(radians(lat)))` with `lat` clamped to
`[-89.99, 89.99]`. -/
noncomputable def metersToDegreesLng_spec (meters lat : ℝ) : ℝ :=
  meters / (111320 * Real.cos (max (-(89.99 : ℝ)) (min (89.99 : ℝ) lat) * Real.pi / 180))

/-- Modelled from the spec (§4.2), for comparison in claim C6: the set of
hexagonal-lattice candidates — rows `Δy = r·√3` apart starting at
`bbox.minY` (while `y ≤ maxY`), columns `Δx = 2r` apart starting at
`bbox.minX` (while `x ≤ maxX`), odd rows offset by `r`. -/
def hexLatticeSet (b : Box) (r : ℝ) : Set (ℝ × ℝ) :=
  {p | ∃ i j : ℕ,
    p.2 = (b.miny : ℝ) + (i : ℝ) * (r * Real.sqrt 3) ∧ p.2 ≤ (b.maxy : ℝ) ∧
    p.1 = (b.minx : ℝ) + (if i % 2 = 1 then r else 0) + (j : ℝ) * (2 * r) ∧
    p.1 ≤ (b.maxx : ℝ)}

/-- Modelled from the spec (§4.4), for comparison in claim C4: the exhaustive
descending scan from `upperBound` with step `max(minStep, (ub − lb)/20)`,
returning the first probed radius that is feasible. -/
def step_scan (probe : ℕ → Bool) (lo hi minStep : ℕ) : Option ℕ :=
  ((List.range ((hi - lo) / max minStep ((hi - lo) / 20) + 1)).map
    fun i => hi - i * max minStep ((hi - lo) / 20)).find? probe

/-- The separation invariant of claim C1 between two committed circles,
oriented by commit order (`c1` committed no later than `c2`): circles of
the same level belong to one batch, carry the same radius, and their
centers are at least the sum of their degree radii apart in the plane;
circles of different levels were committed in increasing level order and
their centers are more than the sum of their meter radii apart in the
oracle's geography metric. -/
def sep (O : Oracle) (c1 c2 : Circle) : Prop :=
  (c1.level = c2.level →
    c1.radius = c2.radius ∧
      (((c1.radius : ℚ) + (c2.radius : ℚ)) * O.K) ^ 2 ≤ distSq (c1.x, c1.y) (c2.x, c2.y)) ∧
  (c1.level ≠ c2.level →
    c1.level < c2.level ∧ (c1.radius : ℚ) + (c2.radius : ℚ) < O.geoDist c2.x c2.y c1.x c1.y)

/-- Claim C4 as stated: the implemented radius search is extensionally the
spec's descending step-scan with `minStep = 50`, for every oracle, table
state and draw stream. -/
def ClaimC4 : Prop :=
  ∀ (O : Oracle) (db : List Circle) (randL : ℕ → ℕ → Pt) (lo hi : ℕ), lo ≤ hi →
    find_largest_possible_radius O db randL lo hi =
      step_scan (fun m => decide (pack_circles_systematic O db m (some 1) (randL m) ≠ [])) lo hi 50

/-- Claim C5 as stated: whenever the radius search of an iteration returns
none, the orchestrator continues with `currentRadius = ⌊0.85 · cap⌋` (next
trace entry), or stops because that value falls below `minRadius`. -/
def ClaimC5 : Prop :=
  ∀ (O : Oracle) (rs : ℕ → ℕ → ℕ → Pt) (rp : ℕ → ℕ → Pt) (start minr i : ℕ) (e : IterLog),
    (generate_optimal_coverage_grid O rs rp start minr).trace[i]? = some e →
      e.found = none →
        ((generate_optimal_coverage_grid O rs rp start minr).trace[i + 1]?).map IterLog.cap =
            some (85 * e.cap / 100) ∨
          85 * e.cap / 100 < minr

/-- Claim C6 as stated: for every bounding box and positive radius the
candidate generator produces exactly the hexagonal lattice of §4.2. -/
def ClaimC6 : Prop :=
  ∀ (b : Box) (r : ℚ), 0 < r →
    ∀ p : ℝ × ℝ,
      (∃ q ∈ grid_candidates b r, ((q.1 : ℝ), (q.2 : ℝ)) = p) ↔ p ∈ hexLatticeSet b (r : ℝ)

/-- Claim C7 as stated: candidate generation and acceptance is deterministic
given the bounding box and radius — the random draw streams do not affect
the produced sequence. -/
def ClaimC7 : Prop :=
  ∀ (O : Oracle) (db : List Circle) (rm : ℕ) (maxc : Option ℕ) (d d' : ℕ → Pt),
    pack_circles_systematic O db rm maxc d = pack_circles_systematic O db rm maxc d'

/-- Claim C8 as stated: the program's conversion agrees with the spec's
`meters / (111320 · cos(radians(clamp lat)))`. -/
def ClaimC8 : Prop := ∀ m lat : ℝ, meters_to_degrees m lat = metersToDegreesLng_spec m lat

/-- Claim C9 as stated: a run on an unknown territory leaves the circle
storage cleared (empty) at the moment of failure. -/
def ClaimC9 : Prop :=
  ∀ (O : Oracle) (rs : ℕ → ℕ → ℕ → Pt) (rp : ℕ → ℕ → Pt) (db0 : List Circle)
    (start minr : ℕ), (mainRun false O rs rp db0 start minr).2 = []

/-- Minimal separation of two batch members accepted by `_can_place_circle`
at degree radius `rd`, in squared form. -/
def farApart (rd : ℚ) (p q : Pt) : Prop := (2 * rd) ^ 2 ≤ distSq p q

/-- The relation between two consecutive orchestrator iterations: the
earlier iteration's search succeeded with a truthy radius `ra` within
`[minr, cap]`, and the later iteration entered with
`current_max_radius = ra - 1` (circles placed) or `ra / 2` (empty level) —
in particular strictly below both `ra` and the earlier cap. -/
def stepRel (minr : ℕ) (a b : IterLog) : Prop :=
  ∃ ra, a.found = some ra ∧ 0 < ra ∧ minr ≤ ra ∧ ra ≤ a.cap ∧
    b.cap = (if a.placed ≠ 0 then ra - 1 else ra / 2) ∧ b.cap < ra ∧ b.cap < a.cap

/-- The database invariant carried through the orchestrator loop: committed
circles pairwise satisfy `sep`, sit at levels below the current level
counter, and passed the oracle's disk-containment test at their own degree
radius. -/
def dbInv (O : Oracle) (lvl : ℕ) (db : List Circle) : Prop :=
  db.Pairwise (sep O) ∧
    ∀ c ∈ db, c.level < lvl ∧ O.containsCircle c.x c.y ((c.radius : ℚ) * O.K) = true

/-- Oracle for the C10 instance: the box `[0,10]²`, with only the point
`(3,3)` in the country.  At the radii this instance uses, the source's
uniform sampling rectangle is `[1,9]²` (radius 1) or `[2,8]²` (radius 2),
and both draw values used below, `(3,3)` and `(4,4)`, lie strictly inside
both rectangles. -/
def oracle10 : Oracle :=
  ⟨fun x y => decide (x = 3) && decide (y = 3), fun _ _ _ => true, fun _ _ _ _ => 0,
    ⟨0, 0, 10, 10⟩, 1⟩

/-- Search-probe draws for the C10 instance: always the feasible in-country
point `(3,3)`, inside the sampling rectangle at every probed radius. -/
def rs10 : ℕ → ℕ → ℕ → Pt := fun _ _ _ => (3, 3)

/-- Level-pack draws for the C10 instance: always `(4,4)` — inside the
sampling rectangle but outside the country, so the level-0 pack places
nothing although the search succeeded through its own draw. -/
def rp10 : ℕ → ℕ → Pt := fun _ _ => (4, 4)

/-- The C10 instance run: level 0 places nothing, level 1 places one circle,
so two levels are reported while only one level contains circles. -/
def run10 : RunResult := generate_optimal_coverage_grid oracle10 rs10 rp10 2 1

/-- Oracle for the C4 counterexample: feasibility depends only on the probed
radius — exactly radius 50000 admits a circle. -/
def oracle4 : Oracle :=
  ⟨fun _ _ => true, fun _ _ rdeg => decide (rdeg = 50000), fun _ _ _ _ => 0, ⟨0, 0, 1, 1⟩, 1⟩

/-- Draw stream for the C4 counterexample. -/
def rand4 : ℕ → ℕ → Pt := fun _ _ => (1 / 2, 1 / 2)

/-- Oracle for the C5 counterexample: no disk is ever contained, so every
search fails. -/
def oracle5 : Oracle :=
  ⟨fun _ _ => true, fun _ _ _ => false, fun _ _ _ _ => 0, ⟨0, 0, 4, 4⟩, 1⟩

/-- The C5 counterexample run: the very first search returns none and the
loop breaks instead of applying a ×0.85 fallback. -/
def run5 : RunResult := generate_optimal_coverage_grid oracle5 rs10 rp10 100 1

/-- A draw stream that always proposes `(3,3)`: inside the sampling
rectangle `[2,8]²` for radius 2 on `[0,10]²`, and accepted. -/
def draws7a : ℕ → Pt := fun _ => (3, 3)

/-- A draw stream that always proposes `(4,4)`: inside the sampling
rectangle `[2,8]²` for radius 2 on `[0,10]²`, but outside the country. -/
def draws7b : ℕ → Pt := fun _ => (4, 4)

attribute [local semireducible] Rat.add Rat.mul Rat.sub Rat.inv

theorem distSq_nonneg (p q : Pt) : 0 ≤ distSq p q := by
  have h1 : (0 : ℚ) ≤ (p.1 - q.1) ^ 2 := sq_nonneg _
  have h2 : (0 : ℚ) ≤ (p.2 - q.2) ^ 2 := sq_nonneg _
  simpa [distSq] using add_nonneg h1 h2

theorem distSq_comm (p q : Pt) : distSq p q = distSq q p := by
  simp only [distSq]
  ring

/-- Membership in the `np.arange` model, for a positive step. -/
theorem arange_mem {start stop step : ℚ} (hstep : 0 < step) (q : ℚ) :
    q ∈ arange start stop step ↔ ∃ i : ℕ, q = start + (i : ℚ) * step ∧ q < stop := by
  unfold arange
  by_cases hlt : start < stop
  · rw [if_pos (And.intro hstep hlt)]
    constructor
    · intro hq
      rcases List.mem_map.mp hq with ⟨i, hi, hqi⟩
      have hin : i < ⌈(stop - start) / step⌉₊ := List.mem_range.mp hi
      have h1 : (i : ℚ) < (stop - start) / step := Nat.lt_ceil.mp hin
      have h2 : (i : ℚ) * step < stop - start := (lt_div_iff₀ hstep).mp h1
      exact ⟨i, hqi.symm, by rw [← hqi]; linarith⟩
    · rintro ⟨i, rfl, hq⟩
      refine List.mem_map.mpr ⟨i, List.mem_range.mpr ?_, rfl⟩
      have h2 : (i : ℚ) * step < stop - start := by linarith
      have h1 : (i : ℚ) < (stop - start) / step := (lt_div_iff₀ hstep).mpr h2
      exact Nat.lt_ceil.mpr h1
  · rw [if_neg (fun h => hlt h.2)]
    simp only [List.range_zero, List.map_nil, List.not_mem_nil, false_iff, not_exists, not_and]
    rintro i rfl hq
    have h0 : (0 : ℚ) ≤ (i : ℚ) * step := mul_nonneg (by positivity) hstep.le
    exact hlt (lt_of_le_of_lt (by linarith) hq)

/-- The packing folds only ever append accepted candidates. -/
theorem foldl_tryPlace_extends (O : Oracle) (db : List Circle) (rm : ℕ) (rd : ℚ)
    (g : List Pt → Bool) (l : List Pt) (acc : List Pt) :
    acc <+: l.foldl (tryPlace O db rm rd g) acc := by
  induction l generalizing acc with
  | nil => exact List.prefix_rfl
  | cons p l ih =>
    rw [List.foldl_cons]
    have hstep : acc <+: tryPlace O db rm rd g acc p := by
      unfold tryPlace
      split
      · exact List.prefix_rfl
      · split
        · exact ⟨[p], rfl⟩
        · exact List.prefix_rfl
    exact hstep.trans (ih (tryPlace O db rm rd g acc p))

/-- Every point produced by a packing fold was in the initial accumulator or
passed the accumulator-independent checks of `_can_place_circle`: in the
country, disk contained, and no conflict with the committed circles. -/
theorem mem_foldl_tryPlace (O : Oracle) (db : List Circle) (rm : ℕ) (rd : ℚ)
    (g : List Pt → Bool) (l : List Pt) (acc : List Pt) (q : Pt)
    (hq : q ∈ l.foldl (tryPlace O db rm rd g) acc) :
    q ∈ acc ∨
      (O.inCountry q.1 q.2 = true ∧ O.containsCircle q.1 q.2 rd = true ∧
        circle_conflicts_with_existing O db q.1 q.2 rm = false) := by
  induction l generalizing acc with
  | nil => exact Or.inl hq
  | cons p l ih =>
    rw [List.foldl_cons] at hq
    rcases ih (tryPlace O db rm rd g acc p) hq with h | h
    · unfold tryPlace at h
      split at h
      · exact Or.inl h
      · split at h
        · rcases List.mem_append.mp h with h' | h'
          · exact Or.inl h'
          · rcases List.mem_singleton.mp h' with rfl
            rename_i hcan
            rw [can_place_circle, Bool.and_eq_true, Bool.and_eq_true, Bool.and_eq_true] at hcan
            refine Or.inr ⟨hcan.1, hcan.2.1, ?_⟩
            have := hcan.2.2.1
            simpa using this
        · exact Or.inl h
    · exact Or.inr h

/-- A packing fold keeps the accumulator pairwise separated: every accepted
candidate is at squared distance at least `(2·rd)²` from each earlier one. -/
theorem pairwise_foldl_tryPlace (O : Oracle) (db : List Circle) (rm : ℕ) (rd : ℚ)
    (g : List Pt → Bool) (l : List Pt) (acc : List Pt)
    (hacc : acc.Pairwise (farApart rd)) :
    (l.foldl (tryPlace O db rm rd g) acc).Pairwise (farApart rd) := by
  induction l generalizing acc with
  | nil => exact hacc
  | cons p l ih =>
    rw [List.foldl_cons]
    refine ih (tryPlace O db rm rd g acc p) ?_
    unfold tryPlace
    split
    · exact hacc
    · split
      · rename_i hcan
        rw [can_place_circle, Bool.and_eq_true, Bool.and_eq_true, Bool.and_eq_true] at hcan
        have hno := hcan.2.2.2
        rw [Bool.not_eq_true', List.any_eq_false] at hno
        rw [List.pairwise_append]
        refine ⟨hacc, List.pairwise_singleton _ _, ?_⟩
        intro a ha b hb
        rcases List.mem_singleton.mp hb with rfl
        have hd := hno a ha
        simp only [decide_eq_true_eq, not_lt] at hd
        rw [farApart, distSq_comm]
        exact hd
      · exact hacc

/-- Folding a step function over copies of a point it leaves fixed. -/
theorem foldl_replicate_fixed {α β : Type} (f : α → β → α) (p : β) (acc : α)
    (h : f acc p = acc) : ∀ n : ℕ, (List.replicate n p).foldl f acc = acc := by
  intro n
  induction n with
  | zero => rfl
  | succ n ih => rw [List.replicate_succ, List.foldl_cons, h]; exact ih

/-- Mapping a constant function over `List.range`. -/
theorem map_range_const {α : Type} (c : α) (n : ℕ) :
    (List.range n).map (fun _ => c) = List.replicate n c := by
  rw [List.map_const']
  rw [List.length_range]

/-- Every point of the grid phase passed the accumulator-independent checks
of `_can_place_circle`. -/
theorem mem_pack_grid_phase (O : Oracle) (db : List Circle) (rm : ℕ) (maxc : Option ℕ)
    (q : Pt) (hq : q ∈ pack_grid_phase O db rm maxc) :
    O.inCountry q.1 q.2 = true ∧ O.containsCircle q.1 q.2 ((rm : ℚ) * O.K) = true ∧
      circle_conflicts_with_existing O db q.1 q.2 rm = false := by
  rcases mem_foldl_tryPlace O db rm ((rm : ℚ) * O.K) (limitGuard maxc) _ _ q hq with h | h
  · exact absurd h (List.not_mem_nil q)
  · exact h

/-- Every circle accepted by `_pack_circles_systematic` passed the
accumulator-independent checks of `_can_place_circle`. -/
theorem pack_mem (O : Oracle) (db : List Circle) (rm : ℕ) (maxc : Option ℕ) (d : ℕ → Pt)
    (q : Pt) (hq : q ∈ pack_circles_systematic O db rm maxc d) :
    O.inCountry q.1 q.2 = true ∧ O.containsCircle q.1 q.2 ((rm : ℚ) * O.K) = true ∧
      circle_conflicts_with_existing O db q.1 q.2 rm = false := by
  rcases maxc with _ | m
  · simp only [pack_circles_systematic] at hq
    rcases mem_foldl_tryPlace O db rm ((rm : ℚ) * O.K) (limitGuard none) _ _ q hq with h | h
    · exact mem_pack_grid_phase O db rm none q h
    · exact h
  · rcases m with _ | m
    · simp only [pack_circles_systematic] at hq
      rcases mem_foldl_tryPlace O db rm ((rm : ℚ) * O.K) (limitGuard (some 0)) _ _ q hq with
        h | h
      · exact mem_pack_grid_phase O db rm (some 0) q h
      · exact h
    · simp only [pack_circles_systematic] at hq
      split at hq
      · rcases mem_foldl_tryPlace O db rm ((rm : ℚ) * O.K) (limitGuard (some (m + 1))) _ _ q
            hq with h | h
        · exact mem_pack_grid_phase O db rm (some (m + 1)) q h
        · exact h
      · exact mem_pack_grid_phase O db rm (some (m + 1)) q hq

/-- The batch produced by `_pack_circles_systematic` is pairwise separated
by `2 * radius_deg` (squared form). -/
theorem pack_pairwise (O : Oracle) (db : List Circle) (rm : ℕ) (maxc : Option ℕ)
    (d : ℕ → Pt) :
    (pack_circles_systematic O db rm maxc d).Pairwise (farApart ((rm : ℚ) * O.K)) := by
  have hg : (pack_grid_phase O db rm maxc).Pairwise (farApart ((rm : ℚ) * O.K)) :=
    pairwise_foldl_tryPlace O db rm ((rm : ℚ) * O.K) (limitGuard maxc) _ [] List.Pairwise.nil
  rcases maxc with _ | m
  · simp only [pack_circles_systematic]
    exact pairwise_foldl_tryPlace O db rm ((rm : ℚ) * O.K) (limitGuard none) _ _ hg
  · rcases m with _ | m
    · simp only [pack_circles_systematic]
      exact pairwise_foldl_tryPlace O db rm ((rm : ℚ) * O.K) (limitGuard (some 0)) _ _ hg
    · simp only [pack_circles_systematic]
      split
      · exact pairwise_foldl_tryPlace O db rm ((rm : ℚ) * O.K) (limitGuard (some (m + 1))) _ _
          hg
      · exact hg

/-- Every circle selected for a level passed the accumulator-independent
checks of `_can_place_circle` against the committed table. -/
theorem level_circles_mem (O : Oracle) (db : List Circle) (d : ℕ → Pt) (rm lvl : ℕ)
    (q : Pt) (hq : q ∈ level_circles O db d rm lvl) :
    O.inCountry q.1 q.2 = true ∧ O.containsCircle q.1 q.2 ((rm : ℚ) * O.K) = true ∧
      circle_conflicts_with_existing O db q.1 q.2 rm = false := by
  rw [level_circles] at hq
  split at hq
  · exact pack_mem O db rm none d q hq
  · split at hq
    · exact pack_mem O db rm none d q hq
    · rcases mem_foldl_tryPlace O db rm ((rm : ℚ) * O.K) uncoveredGuard _ _ q hq with h | h
      · exact absurd h (List.not_mem_nil q)
      · exact h

/-- The batch selected for a level is pairwise separated by
`2 * radius_deg` (squared form). -/
theorem level_circles_pairwise (O : Oracle) (db : List Circle) (d : ℕ → Pt) (rm lvl : ℕ) :
    (level_circles O db d rm lvl).Pairwise (farApart ((rm : ℚ) * O.K)) := by
  rw [level_circles]
  split
  · exact pack_pairwise O db rm none d
  · split
    · exact pack_pairwise O db rm none d
    · exact pairwise_foldl_tryPlace O db rm ((rm : ℚ) * O.K) uncoveredGuard _ []
        List.Pairwise.nil

/-- Soundness of the binary-search loop: any returned radius lies in the
initial range and was a successful probe. -/
theorem bsearchAux_sound (f : ℕ → Bool) (lo0 hi0 : ℕ) :
    ∀ (fuel l r : ℕ) (best : Option ℕ) (x : ℕ),
      lo0 ≤ l → r ≤ hi0 →
      (∀ b, best = some b → lo0 ≤ b ∧ b ≤ hi0 ∧ f b = true) →
      bsearchAux f fuel l r best = some x → lo0 ≤ x ∧ x ≤ hi0 ∧ f x = true := by
  intro fuel
  induction fuel with
  | zero => intro l r best x _ _ hbest hres; exact hbest x hres
  | succ fuel ih =>
    intro l r best x hl hr hbest hres
    rw [bsearchAux] at hres
    split at hres
    · rename_i hlr
      split at hres
      · rename_i hmid
        refine ih _ _ _ x (by omega) hr ?_ hres
        rintro b hb
        injection hb with hb
        subst hb
        exact ⟨by omega, by omega, hmid⟩
      · split at hres
        · exact hbest x hres
        · exact ih _ _ _ x hl (by omega) hbest hres
    · exact hbest x hres

/-- Soundness of `_find_largest_possible_radius`: a returned radius lies in
`[lo, hi]` and its probing pack placed a circle. -/
theorem find_sound (O : Oracle) (db : List Circle) (randL : ℕ → ℕ → Pt) (lo hi x : ℕ)
    (h : find_largest_possible_radius O db randL lo hi = some x) :
    lo ≤ x ∧ x ≤ hi ∧ pack_circles_systematic O db x (some 1) (randL x) ≠ [] := by
  have hs := bsearchAux_sound
    (fun mid => decide (pack_circles_systematic O db mid (some 1) (randL mid) ≠ [])) lo hi
    (hi + 2 - lo) lo hi none x le_rfl le_rfl (by rintro b ⟨⟩) h
  exact ⟨hs.1, hs.2.1, of_decide_eq_true hs.2.2⟩

/-- Full characterization of the binary-search loop under downward-monotone
feasibility, by induction with the loop invariants. -/
theorem bsearchAux_monotone_spec (f : ℕ → Bool) (lo0 hi0 : ℕ)
    (hmono : ∀ a b : ℕ, a ≤ b → f b = true → f a = true) :
    ∀ (fuel l r : ℕ) (best : Option ℕ),
      r + 1 - l ≤ fuel → lo0 ≤ l →  r ≤ hi0 →
      (∀ s, r < s → s ≤ hi0 → f s = false) →
      ((best = none ∧ l = lo0) ∨
        (∃ b, best = some b ∧ l = b + 1 ∧ f b = true ∧ lo0 ≤ b ∧ b ≤ hi0)) →
      ((bsearchAux f fuel l r best = none → ∀ s, lo0 ≤ s → s ≤ hi0 → f s = false) ∧
        (∀ x, bsearchAux f fuel l r best = some x →
          lo0 ≤ x ∧ x ≤ hi0 ∧ f x = true ∧ ∀ s, x < s → s ≤ hi0 → f s = false)) := by
  intro fuel
  induction fuel with
  | zero =>
    intro l r best hfuel hl hr hI hbest
    have hlr : r < l := by omega
    simp only [bsearchAux]
    rcases hbest with ⟨rfl, rfl⟩ | ⟨b, rfl, hlb, hfb, hb1, hb2⟩
    · exact ⟨fun _ s hs1 hs2 => hI s (by omega) hs2, fun x hx => Option.noConfusion hx⟩
    · refine ⟨fun hx => Option.noConfusion hx, fun x hx => ?_⟩
      injection hx with hx
      subst hx
      exact ⟨hb1, hb2, hfb, fun s hs1 hs2 => hI s (by omega) hs2⟩
  | succ fuel ih =>
    intro l r best hfuel hl hr hI hbest
    rw [bsearchAux]
    split
    · rename_i hlr
      split
      · rename_i hmid
        refine ih ((l + r) / 2 + 1) r (some ((l + r) / 2)) (by omega) (by omega) hr hI
          (Or.inr ⟨(l + r) / 2, rfl, rfl, hmid, by omega, by omega⟩)
      · rename_i hmid
        split
        · rename_i hmid0
          have hl0 : l = 0 := by omega
          rcases hbest with ⟨rfl, rfl⟩ | ⟨b, rfl, hlb, hfb, hb1, hb2⟩
          · refine ⟨fun _ s hs1 hs2 => ?_, fun x hx => absurd hx (by simp)⟩
            rcases Nat.lt_or_ge r s with hcase | hcase
            · exact hI s hcase hs2
            · cases hfs : f s with
              | false => rfl
              | true =>
                have h0 : f ((l + r) / 2) = true := hmono _ s (by omega) hfs
                rw [h0] at hmid
                exact absurd rfl hmid
          · omega
        · rename_i hmid0
          refine ih l ((l + r) / 2 - 1) best (by omega) hl (by omega) ?_ hbest
          intro s hs1 hs2
          rcases Nat.lt_or_ge r s with hcase | hcase
          · exact hI s hcase hs2
          · cases hfs : f s with
            | false => rfl
            | true =>
              have h0 : f ((l + r) / 2) = true := hmono _ s (by omega) hfs
              rw [h0] at hmid
              exact absurd rfl hmid
    · rename_i hlr
      rcases hbest with ⟨rfl, rfl⟩ | ⟨b, rfl, hlb, hfb, hb1, hb2⟩
      · exact ⟨fun _ s hs1 hs2 => hI s (by omega) hs2, fun x hx => absurd hx (by simp)⟩
      · refine ⟨fun hx => absurd hx (by simp), fun x hx => ?_⟩
        injection hx with hx
        subst hx
        exact ⟨hb1, hb2, hfb, fun s hs1 hs2 => hI s (by omega) hs2⟩

theorem dbInv_mono (O : Oracle) (lvl lvl' : ℕ) (db : List Circle) (h : lvl ≤ lvl')
    (hinv : dbInv O lvl db) : dbInv O lvl' db :=
  ⟨hinv.1, fun c hc => ⟨lt_of_lt_of_le ((hinv.2 c hc).1) h, (hinv.2 c hc).2⟩⟩

/-- Committing one level's batch preserves the database invariant: the new
circles carry the current level, passed containment, were pairwise separated
within the batch, and were conflict-checked against the whole table. -/
theorem dbInv_insert (O : Oracle) (lvl rm : ℕ) (db : List Circle) (circles : List Pt)
    (hinv : dbInv O lvl db)
    (hmem : ∀ p ∈ circles, O.containsCircle p.1 p.2 ((rm : ℚ) * O.K) = true ∧
      circle_conflicts_with_existing O db p.1 p.2 rm = false)
    (hpw : circles.Pairwise (farApart ((rm : ℚ) * O.K))) :
    dbInv O (lvl + 1) (db ++ circles.map fun p => Circle.mk p.1 p.2 rm lvl) := by
  obtain ⟨hdbpw, hdb⟩ := hinv
  constructor
  · rw [List.pairwise_append]
    refine ⟨hdbpw, ?_, ?_⟩
    · rw [List.pairwise_map]
      refine hpw.imp ?_
      intro p q hpq
      constructor
      · intro _
        refine ⟨rfl, ?_⟩
        have hr : (((rm : ℚ) + (rm : ℚ)) * O.K) ^ 2 = (2 * ((rm : ℚ) * O.K)) ^ 2 := by ring
        rw [hr]
        exact hpq
      · intro hne
        exact absurd rfl hne
    · intro a ha b hb
      rcases List.mem_map.mp hb with ⟨p, hp, rfl⟩
      have hconf := (hmem p hp).2
      have halev := (hdb a ha).1
      constructor
      · intro heq
        exact absurd heq (by simp only [Circle.mk.injEq]; omega)
      · intro _
        refine ⟨halev, ?_⟩
        rw [circle_conflicts_with_existing, List.any_eq_false] at hconf
        have hga := hconf a ha
        simp only [decide_eq_true_eq, not_le] at hga
        have hcomm : (a.radius : ℚ) + (rm : ℚ) = (rm : ℚ) + (a.radius : ℚ) := by ring
        calc (a.radius : ℚ) + (rm : ℚ) = (rm : ℚ) + (a.radius : ℚ) := hcomm
          _ < O.geoDist p.1 p.2 a.x a.y := hga
  · intro c hc
    rcases List.mem_append.mp hc with h | h
    · exact ⟨by have := (hdb c h).1; omega, (hdb c h).2⟩
    · rcases List.mem_map.mp h with ⟨p, hp, rfl⟩
      exact ⟨Nat.lt_succ_self lvl, (hmem p hp).1⟩

/-- The orchestrator loop preserves the database invariant through every
iteration, whatever the oracle and draw streams do. -/
theorem runAux_dbInv (O : Oracle) (rs : ℕ → ℕ → ℕ → Pt) (rp : ℕ → ℕ → Pt) (minr : ℕ) :
    ∀ (fuel cap lvl tot : ℕ) (db : List Circle), dbInv O lvl db →
      dbInv O (runAux O rs rp minr fuel cap lvl tot db).levels
        (runAux O rs rp minr fuel cap lvl tot db).db := by
  intro fuel
  induction fuel with
  | zero => intro cap lvl tot db h; simpa only [runAux] using h
  | succ fuel ih =>
    intro cap lvl tot db h
    simp only [runAux]
    split
    · exact h
    · split
      · exact h
      · exact h
      · rename_i r heq
        split
        · split
          · exact dbInv_mono O lvl (lvl + 1) db (Nat.le_succ lvl) h
          · simp only [consTrace]
            exact ih ((r + 1) / 2) (lvl + 1) tot db
              (dbInv_mono O lvl (lvl + 1) db (Nat.le_succ lvl) h)
        · have hins := dbInv_insert O lvl (r + 1) db (level_circles O db (rp lvl) (r + 1) lvl) h
            (fun p hp => ⟨(level_circles_mem O db (rp lvl) (r + 1) lvl p hp).2.1,
              (level_circles_mem O db (rp lvl) (r + 1) lvl p hp).2.2⟩)
            (level_circles_pairwise O db (rp lvl) (r + 1) lvl)
          split
          · exact hins
          · simp only [consTrace]
            exact ih r (lvl + 1) (tot + (level_circles O db (rp lvl) (r + 1) lvl).length)
              (db ++ (level_circles O db (rp lvl) (r + 1) lvl).map
                fun p => Circle.mk p.1 p.2 (r + 1) lvl) hins

/-- The trace's `level` fields are consecutive, starting at the level counter
of the call: the counter increments by exactly one on every iteration. -/
theorem runAux_trace_level (O : Oracle) (rs : ℕ → ℕ → ℕ → Pt) (rp : ℕ → ℕ → Pt) (minr : ℕ) :
    ∀ (fuel cap lvl tot : ℕ) (db : List Circle),
      (runAux O rs rp minr fuel cap lvl tot db).trace.map IterLog.level =
        List.range' lvl (runAux O rs rp minr fuel cap lvl tot db).trace.length := by
  intro fuel
  induction fuel with
  | zero => intro cap lvl tot db; simp [runAux]
  | succ fuel ih =>
    intro cap lvl tot db
    simp only [runAux]
    split
    · simp
    · split
      · simp
      · simp
      · rename_i r heq
        split
        · split
          · simp
          · simp only [consTrace, List.map_cons, List.length_cons, List.range'_succ]
            rw [ih]
        · split
          · simp
          · simp only [consTrace, List.map_cons, List.length_cons, List.range'_succ]
            rw [ih]

/-- The head entry of a run's trace records the entry `current_max_radius`. -/
theorem runAux_head_cap (O : Oracle) (rs : ℕ → ℕ → ℕ → Pt) (rp : ℕ → ℕ → Pt) (minr : ℕ)
    (fuel cap lvl tot : ℕ) (db : List Circle) (e : IterLog)
    (h : (runAux O rs rp minr fuel cap lvl tot db).trace.head? = some e) : e.cap = cap := by
  match fuel with
  | 0 => exact absurd h (by simp [runAux])
  | fuel + 1 =>
    simp only [runAux] at h
    split at h
    · exact absurd h (by simp)
    · split at h
      · injection h with h; rw [← h]
      · injection h with h; rw [← h]
      · rename_i r heq
        split at h
        · split at h
          · injection h with h; rw [← h]
          · simp only [consTrace, List.head?_cons] at h
            injection h with h; rw [← h]
        · split at h
          · injection h with h; rw [← h]
          · simp only [consTrace, List.head?_cons] at h
            injection h with h; rw [← h]

/-- Any radius recorded in a trace entry's search result lies between
`min_radius` and that entry's `current_max_radius`. -/
theorem runAux_found_bounds (O : Oracle) (rs : ℕ → ℕ → ℕ → Pt) (rp : ℕ → ℕ → Pt) (minr : ℕ) :
    ∀ (fuel cap lvl tot : ℕ) (db : List Circle),
      ∀ e ∈ (runAux O rs rp minr fuel cap lvl tot db).trace,
        ∀ x, e.found = some x → minr ≤ x ∧ x ≤ e.cap := by
  intro fuel
  induction fuel with
  | zero => intro cap lvl tot db e he; exact absurd he (by simp [runAux])
  | succ fuel ih =>
    intro cap lvl tot db e he x hx
    simp only [runAux] at he
    split at he
    · exact absurd he (List.not_mem_nil e)
    · rename_i hcap
      split at he
      · rename_i heq
        rcases List.mem_singleton.mp he with rfl
        exact absurd hx (by simp)
      · rename_i heq
        rcases List.mem_singleton.mp he with rfl
        simp only at hx
        injection hx with hx
        subst hx
        have := find_sound O db (rs lvl) minr cap 0 heq
        exact ⟨this.1, this.2.1⟩
      · rename_i r heq
        have hrb := find_sound O db (rs lvl) minr cap (r + 1) heq
        split at he
        · split at he
          · rcases List.mem_singleton.mp he with rfl
            simp only at hx
            injection hx with hx
            subst hx
            exact ⟨hrb.1, hrb.2.1⟩
          · simp only [consTrace, List.mem_cons] at he
            rcases he with rfl | he
            · simp only at hx
              injection hx with hx
              subst hx
              exact ⟨hrb.1, hrb.2.1⟩
            · exact ih _ _ _ _ e he x hx
        · split at he
          · rcases List.mem_singleton.mp he with rfl
            simp only at hx
            injection hx with hx
            subst hx
            exact ⟨hrb.1, hrb.2.1⟩
          · simp only [consTrace, List.mem_cons] at he
            rcases he with rfl | he
            · simp only at hx
              injection hx with hx
              subst hx
              exact ⟨hrb.1, hrb.2.1⟩
            · exact ih _ _ _ _ e he x hx

/-- The trace of a run is a chain under `stepRel`: every non-final iteration
found a truthy radius in range, and its successor's cap is `ra - 1` or
`ra / 2` according to whether circles were placed. -/
theorem runAux_chain (O : Oracle) (rs : ℕ → ℕ → ℕ → Pt) (rp : ℕ → ℕ → Pt) (minr : ℕ) :
    ∀ (fuel cap lvl tot : ℕ) (db : List Circle),
      List.Chain' (stepRel minr) (runAux O rs rp minr fuel cap lvl tot db).trace := by
  intro fuel
  induction fuel with
  | zero => intro cap lvl tot db; simp [runAux]
  | succ fuel ih =>
    intro cap lvl tot db
    simp only [runAux]
    split
    · simp
    · split
      · simp
      · simp
      · rename_i r heq
        have hrb := find_sound O db (rs lvl) minr cap (r + 1) heq
        split
        · rename_i hemp
          split
          · simp
          · simp only [consTrace]
            rw [List.chain'_cons']
            refine ⟨?_, ih _ _ _ _⟩
            intro b hb
            have hcapb := runAux_head_cap O rs rp minr fuel ((r + 1) / 2) (lvl + 1) tot db b hb
            refine ⟨r + 1, rfl, Nat.succ_pos r, hrb.1, hrb.2.1, ?_, ?_, ?_⟩
            · simp [hcapb]
            · rw [hcapb]
              omega
            · rw [hcapb]
              show (r + 1) / 2 < cap
              have := hrb.2.1
              omega
        · rename_i hemp
          split
          · simp
          · simp only [consTrace]
            rw [List.chain'_cons']
            refine ⟨?_, ih _ _ _ _⟩
            intro b hb
            have hcapb := runAux_head_cap O rs rp minr fuel r (lvl + 1)
              (tot + (level_circles O db (rp lvl) (r + 1) lvl).length)
              (db ++ (level_circles O db (rp lvl) (r + 1) lvl).map
                fun p => Circle.mk p.1 p.2 (r + 1) lvl) b hb
            have hlen : (level_circles O db (rp lvl) (r + 1) lvl).length ≠ 0 := by
              simpa [List.length_eq_zero] using hemp
            refine ⟨r + 1, rfl, Nat.succ_pos r, hrb.1, hrb.2.1, ?_, ?_, ?_⟩
            · simp [hcapb, hlen]
            · rw [hcapb]
              omega
            · rw [hcapb]
              show r < cap
              have := hrb.2.1
              omega

theorem dbInv_empty (O : Oracle) : dbInv O 0 [] :=
  ⟨List.Pairwise.nil, fun c hc => absurd hc (List.not_mem_nil c)⟩

/-- One unfolding of the orchestrator loop in the case where the search
found a truthy radius but the level placed no circles. -/
theorem runAux_step_empty (O : Oracle) (rs : ℕ → ℕ → ℕ → Pt) (rp : ℕ → ℕ → Pt)
    (minr fuel cap lvl tot : ℕ) (db : List Circle) (r : ℕ)
    (hcap : ¬cap < minr)
    (hfind : find_largest_possible_radius O db (rs lvl) minr cap = some (r + 1))
    (hcirc : level_circles O db (rp lvl) (r + 1) lvl = [])
    (hlvl : ¬lvl + 1 > 50) :
    runAux O rs rp minr (fuel + 1) cap lvl tot db =
      consTrace ⟨lvl, cap, some (r + 1), 0⟩
        (runAux O rs rp minr fuel ((r + 1) / 2) (lvl + 1) tot db) := by
  simp only [runAux]
  rw [if_neg hcap, hfind]
  split
  · rename_i heq
    exact absurd heq (by simp)
  · rename_i heq
    exact absurd heq (by simp)
  · rename_i s heq
    injection heq with heq
    have hs : s = r := by omega
    subst hs
    rw [if_pos hcirc, if_neg hlvl]

/-- C1: across every run, for every pair of committed circles (in commit
order), circles of one level share a radius and their centers are at least
`2 · radius_deg` apart in the coordinate plane (stated in squared form, with
`radius_deg = radius · K`), while circles of different levels were committed
at strictly increasing levels with centers more than the sum of their meter
radii apart in the oracle's geography metric — so no Level Packer call
accepts two overlapping candidates in one batch, and no committed circle
overlaps an earlier one, each in the metric of the check that guards it. -/
theorem run_committed_circles_separated (O : Oracle) (rs : ℕ → ℕ → ℕ → Pt)
    (rp : ℕ → ℕ → Pt) (start minr : ℕ) :
    (generate_optimal_coverage_grid O rs rp start minr).db.Pairwise (sep O) :=
  (runAux_dbInv O rs rp minr 60 start 0 0 [] (dbInv_empty O)).1

/-- C2: every circle committed by a run passed the oracle's containment
test for the disk of its own degree radius centered at its center: the run
never commits a circle that skipped `country_boundary.contains(buffer)`. -/
theorem run_committed_circles_contained (O : Oracle) (rs : ℕ → ℕ → ℕ → Pt)
    (rp : ℕ → ℕ → Pt) (start minr : ℕ) :
    ((generate_optimal_coverage_grid O rs rp start minr).db.all
      fun c => O.containsCircle c.x c.y ((c.radius : ℚ) * O.K)) = true := by
  rw [List.all_eq_true]
  intro c hc
  exact ((runAux_dbInv O rs rp minr 60 start 0 0 [] (dbInv_empty O)).2 c hc).2

/-- C3: for every configuration and every oracle and randomness behaviour,
`current_max_radius` strictly decreases across consecutive loop iterations,
and the radii selected for consecutive levels strictly decrease. -/
theorem run_radius_monotone (O : Oracle) (rs : ℕ → ℕ → ℕ → Pt) (rp : ℕ → ℕ → Pt)
    (start minr : ℕ) :
    List.Chain'
      (fun a b => b.cap < a.cap ∧
        ∀ ra rb, a.found = some ra → b.found = some rb → rb < ra)
      (generate_optimal_coverage_grid O rs rp start minr).trace := by
  rw [generate_optimal_coverage_grid]
  have hch := runAux_chain O rs rp minr 60 start 0 0 []
  have hfb := runAux_found_bounds O rs rp minr 60 start 0 0 []
  rw [List.chain'_iff_get] at hch ⊢
  intro i hi
  obtain ⟨ra, hfa, _, _, _, _, hblt, hbcap⟩ := hch i hi
  refine ⟨hbcap, ?_⟩
  intro ra' rb hfa' hfb'
  rw [hfa] at hfa'
  injection hfa' with h'
  subst h'
  have hlen : i + 1 < (runAux O rs rp minr 60 start 0 0 []).trace.length := by omega
  have hrb := (hfb _ (List.get_mem (runAux O rs rp minr 60 start 0 0 []).trace (i + 1) hlen)
    rb hfb').2
  omega

/-- C5 amended: the orchestrator applies no ×0.85 fallback.  Whenever an
iteration has a successor, its search returned a truthy radius `ra` in
`[min_radius, cap]`, and the successor's cap is `ra - 1` when circles were
placed and `ra / 2` when the level was empty; a search failure (`None` or
`0`) ends the run at once, so a failing iteration is always the last. -/
theorem run_search_failure_breaks (O : Oracle) (rs : ℕ → ℕ → ℕ → Pt) (rp : ℕ → ℕ → Pt)
    (start minr : ℕ) :
    List.Chain' (stepRel minr) (generate_optimal_coverage_grid O rs rp start minr).trace :=
  runAux_chain O rs rp minr 60 start 0 0 []

/-- C5 counterexample: on an oracle that rejects every disk, the first
search returns none at cap 100 with `min_radius = 1`; the claimed fallback
`⌊0.85·100⌋ = 85` is above the minimum, yet the run ends with no further
iteration — the loop breaks instead of continuing at radius 85. -/
theorem fallback_reduction_refuted : ¬ ClaimC5 := by
  intro h
  have h5 := h oracle5 rs10 rp10 100 1 0 ⟨0, 100, none, 0⟩ (by decide) rfl
  rcases h5 with h5 | h5
  · exact absurd h5 (by decide)
  · exact absurd h5 (by decide)

/-- The level-0 pack of the C10 instance places nothing: every systematic
grid candidate for radius 2 on the `[0,10]²` box is out of the country, and
all 5000 random draws propose `(4,4)` — inside the sampling rectangle
`[2,8]²` but out of the country. -/
theorem pack_level0_run10 : pack_circles_systematic oracle10 [] 2 none (rp10 0) = [] := by
  show ((List.range 5000).map (rp10 0)).foldl
      (tryPlace oracle10 [] 2 (((2 : ℕ) : ℚ) * oracle10.K) (limitGuard none))
      (pack_grid_phase oracle10 [] 2 none) = []
  rw [(by decide : pack_grid_phase oracle10 [] 2 none = [])]
  rw [show (List.range 5000).map (rp10 0) = List.replicate 5000 ((4 : ℚ), (4 : ℚ)) from
    map_range_const ((4 : ℚ), (4 : ℚ)) 5000]
  exact foldl_replicate_fixed _ _ _ (by decide) 5000

/-- Level 0 of the C10 instance selects no circles. -/
theorem level0_run10 : level_circles oracle10 [] (rp10 0) 2 0 = [] := pack_level0_run10

set_option maxRecDepth 40000 in
/-- The C10 instance run evaluated: level 0 found radius 2 (through its
in-rectangle probe draw) but placed nothing, level 1 placed one circle at
radius 1, then the loop stopped. -/
theorem run10_eq :
    run10 = ⟨[⟨3, 3, 1, 1⟩], 1, 2, [⟨0, 2, some 2, 0⟩, ⟨1, 1, some 1, 1⟩]⟩ := by
  have h0 := runAux_step_empty oracle10 rs10 rp10 1 59 2 0 0 [] 1 (by norm_num)
    (by decide) level0_run10 (by norm_num)
  show runAux oracle10 rs10 rp10 1 (59 + 1) 2 0 0 [] = _
  rw [h0]
  decide

/-- C10: the orchestrator's level counter increments by exactly one on every
iteration (the trace's `level` fields are `0, 1, 2, ...`), committed batch
levels are monotone in commit order, and — witnessed by the concrete
instance `run10` — a run can report 2 levels while its circles occupy only
level 1, so the reported level count can exceed the number of levels that
contain circles and the occupied levels need not start at 0. -/
theorem run_level_counter_increments :
    (∀ (O : Oracle) (rs : ℕ → ℕ → ℕ → Pt) (rp : ℕ → ℕ → Pt) (start minr : ℕ),
      (generate_optimal_coverage_grid O rs rp start minr).trace.map IterLog.level =
        List.range (generate_optimal_coverage_grid O rs rp start minr).trace.length ∧
      (generate_optimal_coverage_grid O rs rp start minr).db.Pairwise
        (fun a b => a.level ≤ b.level)) ∧
    run10.levels = 2 ∧ run10.db.map Circle.level = [1] := by
  refine ⟨?_, ?_, ?_⟩
  · intro O rs rp start minr
    constructor
    · rw [generate_optimal_coverage_grid, List.range_eq_range']
      exact runAux_trace_level O rs rp minr 60 start 0 0 []
    · have hpw := (runAux_dbInv O rs rp minr 60 start 0 0 [] (dbInv_empty O)).1
      rw [generate_optimal_coverage_grid]
      refine List.Pairwise.imp ?_ hpw
      intro a b hab
      by_cases h : a.level = b.level
      · exact le_of_eq h
      · exact le_of_lt ((hab.2 h).1)
  · rw [run10_eq]
  · rw [run10_eq]
    rfl

/-- C4 counterexample: with an oracle whose feasibility depends only on the
probed radius (exactly 50000 is feasible), the implemented binary search
over `[100, 50000]` never probes 50000 and returns none, while the spec's
descending step-scan probes the upper bound first and returns 50000. -/
theorem find_radius_not_step_scan : ¬ ClaimC4 := by
  intro h
  have h4 := h oracle4 [] rand4 100 50000 (by norm_num)
  rw [(by decide : find_largest_possible_radius oracle4 [] rand4 100 50000 = none)] at h4
  rw [(by decide : step_scan
    (fun m => decide (pack_circles_systematic oracle4 [] m (some 1) (rand4 m) ≠ []))
    100 50000 50 = some 50000)] at h4
  exact Option.noConfusion h4

/-- C4 amended: the implemented search is the binary search `bsearch`, not
the spec's step-scan.  When per-radius feasibility is downward monotone the
binary search is exact: it returns none iff no radius in `[lo, hi]` is
feasible, and otherwise returns precisely the greatest feasible radius.
Without monotonicity the two searches differ (see the counterexample). -/
theorem bsearch_monotone_greatest (f : ℕ → Bool) (lo hi : ℕ)
    (hmono : ∀ a b : ℕ, a ≤ b → f b = true → f a = true) :
    (bsearch f lo hi = none → ∀ s, lo ≤ s → s ≤ hi → f s = false) ∧
    (∀ x, bsearch f lo hi = some x →
      lo ≤ x ∧ x ≤ hi ∧ f x = true ∧ ∀ s, x < s → s ≤ hi → f s = false) :=
  bsearchAux_monotone_spec f lo hi hmono (hi + 2 - lo) lo hi none (by omega) le_rfl
    le_rfl (fun s h1 h2 => absurd h1 (by omega)) (Or.inl ⟨rfl, rfl⟩)

/-- Witness for the C4 amended theorem: on the monotone probe `r ≤ 7` over
`[1, 10]` the binary search returns 7, the greatest feasible radius. -/
theorem bsearch_monotone_greatest_witness :
    1 ≤ 7 ∧ 7 ≤ 10 ∧ (fun r => decide (r ≤ 7)) 7 = true ∧
      ∀ s, 7 < s → s ≤ 10 → (fun r => decide (r ≤ 7)) s = false :=
  (bsearch_monotone_greatest (fun r => decide (r ≤ 7)) 1 10
    (fun a b hab hb => by simp only [decide_eq_true_eq] at *; omega)).2 7 (by decide)

/-- C6 counterexample: on the box `[0,10]²` with radius 1 the hexagonal
lattice of the spec contains the corner `(0, 0)` (row 0 starts at `minY`,
x starts at `minX`), but the implemented generator never proposes it: its
grid starts at `min + radius_deg` in both axes. -/
theorem grid_not_hex_lattice : ¬ ClaimC6 := by
  intro h
  have h6 := (h ⟨0, 0, 10, 10⟩ 1 one_pos ((0 : ℝ), (0 : ℝ))).mpr ?hex
  case hex =>
    refine ⟨0, 0, ?_, ?_, ?_, ?_⟩
    · norm_num
    · norm_num
    · norm_num
    · norm_num
  obtain ⟨q, hq, hcast⟩ := h6
  have h1 : (q.1 : ℝ) = 0 := congrArg Prod.fst hcast
  have h2 : (q.2 : ℝ) = 0 := congrArg Prod.snd hcast
  have hq1 : q.1 = 0 := by exact_mod_cast h1
  have hq2 : q.2 = 0 := by exact_mod_cast h2
  have hq0 : q = ((0 : ℚ), (0 : ℚ)) := Prod.ext hq1 hq2
  rw [hq0] at hq
  exact absurd hq (by decide)

/-- C6 amended: the implemented candidate generator is a square grid, not a
hexagonal lattice: its candidates are exactly the points
`(minx + radius_deg + i · 1.8·radius_deg, miny + radius_deg + j · 1.8·radius_deg)`
with both coordinates strictly below `max − radius_deg` — same pitch in both
axes, no row offset, and an inset of one radius from every side. -/
theorem grid_candidates_mem_iff (b : Box) (rdeg : ℚ) (h : 0 < rdeg) (q : Pt) :
    q ∈ grid_candidates b rdeg ↔
      (∃ i : ℕ, q.1 = b.minx + rdeg + (i : ℚ) * (rdeg * (9 / 5)) ∧ q.1 < b.maxx - rdeg) ∧
      (∃ j : ℕ, q.2 = b.miny + rdeg + (j : ℚ) * (rdeg * (9 / 5)) ∧ q.2 < b.maxy - rdeg) := by
  have hs : 0 < rdeg * (9 / 5) := by positivity
  constructor
  · intro hq
    rw [grid_candidates] at hq
    rcases List.mem_flatMap.mp hq with ⟨x, hx, hq2⟩
    rcases List.mem_map.mp hq2 with ⟨y, hy, rfl⟩
    exact ⟨(arange_mem hs x).mp hx, (arange_mem hs y).mp hy⟩
  · rintro ⟨⟨i, hx1, hx2⟩, ⟨j, hy1, hy2⟩⟩
    rw [grid_candidates]
    refine List.mem_flatMap.mpr ⟨q.1, (arange_mem hs q.1).mpr ⟨i, hx1, hx2⟩, ?_⟩
    exact List.mem_map.mpr ⟨q.2, (arange_mem hs q.2).mpr ⟨j, hy1, hy2⟩, rfl⟩

/-- Witness for the C6 amended theorem: `(1, 1)` is the first candidate of
the grid on `[0,10]²` at radius 1. -/
theorem grid_candidates_mem_iff_witness :
    0 < (1 : ℚ) ∧ ((1 : ℚ), (1 : ℚ)) ∈ grid_candidates ⟨0, 0, 10, 10⟩ 1 :=
  ⟨one_pos, (grid_candidates_mem_iff ⟨0, 0, 10, 10⟩ 1 one_pos ((1 : ℚ), (1 : ℚ))).mpr
    ⟨⟨0, by norm_num, by norm_num⟩, ⟨0, by norm_num, by norm_num⟩⟩⟩

/-- The pack of the C7 instance under the draw stream that always proposes
`(3,3)` (inside the sampling rectangle `[2,8]²`): the grid phase accepts
nothing, the first draw is accepted, and every further identical draw is
rejected by the batch-distance check. -/
theorem pack_run7a : pack_circles_systematic oracle10 [] 2 none draws7a = [((3 : ℚ), (3 : ℚ))] := by
  show ((List.range 5000).map draws7a).foldl
      (tryPlace oracle10 [] 2 (((2 : ℕ) : ℚ) * oracle10.K) (limitGuard none))
      (pack_grid_phase oracle10 [] 2 none) = [((3 : ℚ), (3 : ℚ))]
  rw [(by decide : pack_grid_phase oracle10 [] 2 none = [])]
  rw [show (List.range 5000).map draws7a = List.replicate 5000 ((3 : ℚ), (3 : ℚ)) from
    map_range_const ((3 : ℚ), (3 : ℚ)) 5000]
  rw [show (5000 : ℕ) = 4999 + 1 from rfl, List.replicate_succ, List.foldl_cons]
  rw [(by decide : tryPlace oracle10 [] 2 (((2 : ℕ) : ℚ) * oracle10.K) (limitGuard none) []
    ((3 : ℚ), (3 : ℚ)) = [((3 : ℚ), (3 : ℚ))])]
  exact foldl_replicate_fixed _ _ _ (by decide) 4999

/-- The pack of the C7 instance under the draw stream that always proposes
`(4,4)` — inside the sampling rectangle `[2,8]²` but out of the country:
nothing is placed. -/
theorem pack_run7b : pack_circles_systematic oracle10 [] 2 none draws7b = [] := by
  show ((List.range 5000).map draws7b).foldl
      (tryPlace oracle10 [] 2 (((2 : ℕ) : ℚ) * oracle10.K) (limitGuard none))
      (pack_grid_phase oracle10 [] 2 none) = []
  rw [(by decide : pack_grid_phase oracle10 [] 2 none = [])]
  rw [show (List.range 5000).map draws7b = List.replicate 5000 ((4 : ℚ), (4 : ℚ)) from
    map_range_const ((4 : ℚ), (4 : ℚ)) 5000]
  exact foldl_replicate_fixed _ _ _ (by decide) 5000

/-- C7 counterexample: the same oracle, table, bounding box and radius give
different outputs under two different random draw streams, both of which
take all their values strictly inside the source's uniform sampling
rectangle `[2,8]²` for this box and radius — so both runs are behaviours
the program's RNG can produce, and the pack output is not a function of the
bounding box and radius alone. -/
theorem pack_not_deterministic : ¬ ClaimC7 := by
  intro h
  have h7 := h oracle10 [] 2 none draws7a draws7b
  rw [pack_run7a, pack_run7b] at h7
  exact List.noConfusion h7

/-- C7 amended: only the systematic grid phase is deterministic given the
bounding box and radius: for every draw stream it is a prefix of the pack
output, the random fill appending after it (and possibly differing across
runs, see the counterexample). -/
theorem pack_grid_phase_deterministic_lead (O : Oracle) (db : List Circle) (rm : ℕ)
    (maxc : Option ℕ) (d : ℕ → Pt) :
    pack_grid_phase O db rm maxc <+: pack_circles_systematic O db rm maxc d := by
  rcases maxc with _ | m
  · simp only [pack_circles_systematic]
    exact foldl_tryPlace_extends O db rm ((rm : ℚ) * O.K) (limitGuard none) _ _
  · rcases m with _ | m
    · simp only [pack_circles_systematic]
      exact foldl_tryPlace_extends O db rm ((rm : ℚ) * O.K) (limitGuard (some 0)) _ _
    · simp only [pack_circles_systematic]
      split
      · exact foldl_tryPlace_extends O db rm ((rm : ℚ) * O.K) (limitGuard (some (m + 1))) _ _
      · exact List.prefix_rfl

/-- C8 counterexample: at `meters = 111320`, `lat = 0` the spec's formula
gives exactly 1 degree, while the program computes
`111320 · 180 / (6378137 · π) ≈ 1.0000046`: the program's constant is
`6378137 · π / 180 ≈ 111319.49`, not 111320. -/
theorem meters_to_degrees_not_spec : ¬ ClaimC8 := by
  intro h
  have h8 := h 111320 0
  rw [meters_to_degrees, metersToDegreesLng_spec] at h8
  have hclamp : max (-(89.99 : ℝ)) (min (89.99 : ℝ) 0) = 0 := by norm_num
  rw [hclamp] at h8
  have hc : Real.cos ((0 : ℝ) * Real.pi / 180) = 1 := by
    rw [show (0 : ℝ) * Real.pi / 180 = 0 by ring, Real.cos_zero]
  rw [hc] at h8
  have hπ : (0 : ℝ) < Real.pi := Real.pi_pos
  have hlt : Real.pi < 3.141593 := Real.pi_lt_d6
  field_simp at h8
  nlinarith [h8, hlt, hπ]

/-- C8 amended: the program has a single conversion
`meters_to_degrees(m, lat) = m / ((6378137·π/180) · cos(lat·π/180))` —
latitude correction applied to every conversion, no clamping of the
latitude, and a meters-per-degree constant strictly between 111319 and
111320 (hence not the spec's 111320.0). -/
theorem meters_to_degrees_closed_form :
    (∀ m lat : ℝ, meters_to_degrees m lat =
      m / ((6378137 * Real.pi / 180) * Real.cos (lat * Real.pi / 180))) ∧
    111319 < 6378137 * Real.pi / 180 ∧ 6378137 * Real.pi / 180 < 111320 := by
  refine ⟨fun m lat => ?_, ?_, ?_⟩
  · rw [meters_to_degrees]
    ring
  · nlinarith [Real.pi_gt_d6]
  · nlinarith [Real.pi_lt_d6]

/-- C9 counterexample: running on an unknown territory with one pre-existing
circle in storage fails, but leaves that circle in place — the storage is
not cleared, because the boundary lookup precedes the clear. -/
theorem unknown_territory_storage_not_cleared : ¬ ClaimC9 := by
  intro h
  have h9 := h oracle10 rs10 rp10 [⟨1, 1, 5, 0⟩] 2 1
  rw [mainRun] at h9
  simp only [Bool.false_eq_true, if_false] at h9
  exact List.noConfusion h9

/-- C9 amended: on an unknown territory the run aborts with the lookup
error before any clearing — zero circles are persisted and the storage
keeps its prior contents rather than being left empty; on the known path
the final storage is independent of its prior contents, because the run
begins with a full clear. -/
theorem unknown_territory_aborts_before_clear (O : Oracle) (rs : ℕ → ℕ → ℕ → Pt)
    (rp : ℕ → ℕ → Pt) (db0 db1 : List Circle) (start minr : ℕ) :
    (mainRun false O rs rp db0 start minr).1 = Except.error "Country not found" ∧
    (mainRun false O rs rp db0 start minr).2 = db0 ∧
    (mainRun true O rs rp db0 start minr).2 = (mainRun true O rs rp db1 start minr).2 :=
  ⟨rfl, rfl, rfl⟩

end GridGen
